import Mathlib

/-!
Verification of the deflate streaming driver of the pako-esm repository.

The driver (`Deflate`, `push`, `onData`, `onEnd`, the one-shot wrappers
`deflate`, `deflateRaw`, `gzip`) is embedded shallowly from the source.
The block compression engine itself (`zlib/deflate.js`) is an external
collaborator of the driver and is represented by the abstract `Engine`
record; a concrete engine modelled from the spec's engine contract is
used where a claim needs one.
-/

namespace Pako

/-! Flush and status constants bound at the top of the deflate driver module. -/

def Z_NO_FLUSH : Int := 0

def Z_FINISH : Int := 4

def Z_OK : Int := 0

def Z_STREAM_END : Int := 1

def Z_SYNC_FLUSH : Int := 2

def Z_DEFAULT_COMPRESSION : Int := -1

def Z_DEFAULT_STRATEGY : Int := 0

def Z_DEFLATED : Int := 8

/-! Exported return-code constants of src/lib/zlib/constants.js, transcribed
with the exact values the file assigns. -/

namespace zconst

def Z_OK : Int := 0

def Z_STREAM_END : Int := 1

def Z_NEED_DICT : Int := 2

def Z_ERRNO : Int := 1

def Z_STREAM_ERROR : Int := 2

def Z_DATA_ERROR : Int := 3

def Z_MEM_ERROR : Int := 4

def Z_BUF_ERROR : Int := 5

def Z_VERSION_ERROR : Int := -6

end zconst

/-- Gzip header record, from src/unnamed/part_001 (class GZheader). -/
structure GZheader where
  text : Nat := 0
  time : Nat := 0
  xflags : Nat := 0
  os : Nat := 0
  extra : Option (List Nat) := none
  extra_len : Nat := 0
  name : String := ""
  comment : String := ""
  hcrc : Nat := 0
  done : Bool := false
deriving DecidableEq

/-- Stream state shared between driver and engine, from
src/lib/zlib/zstream.js (class ZStream); the opaque engine-internal `state`
field is the type parameter. -/
structure Strm (σ : Type) where
  input : List Nat := []
  next_in : Nat := 0
  avail_in : Nat := 0
  total_in : Nat := 0
  output : List Nat := []
  next_out : Nat := 0
  avail_out : Nat := 0
  total_out : Nat := 0
  msg : String := ""
  state : σ
  data_type : Nat := 2
  adler : Nat := 0
deriving DecidableEq

/-- The block codec engine consumed by the driver (zlib_deflate in the
source, not under src): each operation transforms the stream state and
returns a status code. -/
structure Engine (σ : Type) where
  deflateInit2 : Strm σ → Int → Int → Int → Int → Int → Strm σ × Int
  deflate : Strm σ → Int → Strm σ × Int
  deflateEnd : Strm σ → Strm σ × Int
  deflateSetHeader : Strm σ → GZheader → Strm σ × Int
  deflateSetDictionary : Strm σ → List Nat → Strm σ × Int

/-- Input data handed to a push: a byte sequence or text. -/
inductive Data where
  | bytes (bs : List Nat)
  | str (s : String)
deriving DecidableEq

/-- An emitted output chunk: a byte sequence, or a binary string when the
output representation selector is the string one. -/
inductive Chunk where
  | bytes (bs : List Nat)
  | str (s : String)
deriving DecidableEq

/-- A call of one of the overridable hooks, recorded in emission order. -/
inductive HookCall where
  | onData (c : Chunk)
  | onEnd (status : Int)
deriving DecidableEq

/-- Modelled from the spec: the text-to-bytes encoder (the strings module of
the repository is not under src); "text is encoded to bytes" as UTF-8. -/
def string2buf (s : String) : List Nat :=
  s.toUTF8.toList.map (fun b => b.toNat)

/-- Modelled from the spec: binary-string decoding where each character's
code equals one byte value 0-255 (the strings module is not under src). -/
def buf2binstring (bs : List Nat) : String :=
  String.mk (bs.map Char.ofNat)

/-- Modelled from the spec: the filled portion of the output buffer from 0 to
the output cursor (shrinkBuf of the utils module is not under src). -/
def shrinkBuf (buf : List Nat) (size : Nat) : List Nat :=
  buf.take size

/-- Overwrite a region of a list starting at `pos`, the typed-array `set`
operation used by flattenChunks. -/
def writeAt (dst : List Nat) (pos : Nat) (src : List Nat) : List Nat :=
  dst.take pos ++ src ++ dst.drop (pos + src.length)

/-- flattenChunks from src/unnamed/part_001: sum the chunk lengths, allocate
a zeroed result of that length, copy each chunk at its running offset. -/
def flattenChunks (chunks : List (List Nat)) : List Nat :=
  let len := (chunks.map List.length).sum
  let result := List.replicate len 0
  (chunks.foldl (fun acc chunk => (writeAt acc.1 acc.2 chunk, acc.2 + chunk.length))
    (result, 0)).1

/-- Caller-supplied options object: every recognized key may be absent. -/
structure Options where
  level : Option Int := none
  method : Option Int := none
  chunkSize : Option Nat := none
  windowBits : Option Int := none
  memLevel : Option Int := none
  strategy : Option Int := none
  «to» : Option String := none
  raw : Bool := false
  gzip : Bool := false
  dictionary : Option Data := none
  header : Option GZheader := none
deriving DecidableEq

/-- Configuration after the constructor merges caller options onto the
defaults. -/
structure Opts where
  level : Int
  method : Int
  chunkSize : Nat
  windowBits : Int
  memLevel : Int
  strategy : Int
  «to» : String
  raw : Bool
  gzip : Bool
  dictionary : Option Data
  header : Option GZheader
deriving DecidableEq

/-- Merge of caller options onto the constructor's defaults
(commons.assign of the defaults literal with the caller's object). -/
def mergeOptions (options : Options) : Opts where
  level := options.level.getD Z_DEFAULT_COMPRESSION
  method := options.method.getD Z_DEFLATED
  chunkSize := options.chunkSize.getD 16384
  windowBits := options.windowBits.getD 15
  memLevel := options.memLevel.getD 8
  strategy := options.strategy.getD Z_DEFAULT_STRATEGY
  «to» := options.«to».getD ""
  raw := options.raw
  gzip := options.gzip
  dictionary := options.dictionary
  header := options.header

/-- Window-bits adjustment applied by the constructor to the merged
configuration: negate for raw mode with positive window bits, else add 16
for gzip mode with window bits strictly between 0 and 16. -/
def adjustOpts (opt : Opts) : Opts :=
  if opt.raw ∧ 0 < opt.windowBits then
    { opt with windowBits := -opt.windowBits }
  else if opt.gzip ∧ 0 < opt.windowBits ∧ opt.windowBits < 16 then
    { opt with windowBits := opt.windowBits + 16 }
  else opt

/-- Driver instance state: configuration, error code and message, the
termination flag, the pending chunk list, the aggregated result and the
stream state. -/
structure Deflator (σ : Type) where
  options : Opts
  err : Int
  msg : String
  ended : Bool
  chunks : List Chunk
  result : Option Chunk
  dict_set : Bool
  strm : Strm σ
deriving DecidableEq

variable {σ : Type}

/-- Bytes of a chunk, for the binary aggregation path. -/
def Chunk.toBytes : Chunk → List Nat
  | .bytes bs => bs
  | .str _ => []

/-- Text of a chunk, for the textual aggregation path. -/
def Chunk.toStr : Chunk → String
  | .bytes _ => ""
  | .str s => s

/-- Default onData hook: append the chunk to the pending list. -/
def Deflate.onData (self : Deflator σ) (chunk : Chunk) : Deflator σ :=
  { self with chunks := self.chunks ++ [chunk] }

/-- Default onEnd hook: on success join the collected chunks into `result`,
then in all cases clear the pending list and record the status and the
stream's diagnostic message. -/
def Deflate.onEnd (self : Deflator σ) (status : Int) : Deflator σ :=
  let s1 :=
    if status = Z_OK then
      if self.options.«to» = "string" then
        { self with result := some (Chunk.str (String.join (self.chunks.map Chunk.toStr))) }
      else
        { self with result := some (Chunk.bytes (flattenChunks (self.chunks.map Chunk.toBytes))) }
    else self
  { s1 with chunks := [], err := status, msg := self.strm.msg }

/-- Mode argument of push: an integer code or the boolean shorthand. -/
inductive PushMode where
  | int (m : Int)
  | bool (b : Bool)
deriving DecidableEq

/-- Mode normalization at the top of push: an integer is taken as is; `true`
means finish, `false` means no-flush. -/
def normMode : PushMode → Int
  | .int m => m
  | .bool b => if b then Z_FINISH else Z_NO_FLUSH

/-- Input conversion at the top of push: text is encoded to bytes, byte data
used as is. -/
def dataToBytes : Data → List Nat
  | .bytes bs => bs
  | .str s => string2buf s

/-- Fresh-buffer allocation at the top of the loop body: when remaining
output capacity is 0, allocate a zeroed buffer of the chunk capacity, reset
the output cursor to 0 and the remaining capacity to the full chunk size. -/
def allocIfNeeded (cs : Nat) (strm : Strm σ) : Strm σ :=
  if strm.avail_out = 0 then
    { strm with output := List.replicate cs 0, next_out := 0, avail_out := cs }
  else strm

/-- Outcome of one iteration of the push chunk loop. -/
structure IterResult (σ : Type) where
  self : Deflator σ
  trace : List HookCall
  status : Int
  errored : Bool
  allocated : Bool
  emitted : Option Chunk
deriving DecidableEq

/-- One iteration of the push chunk loop: allocate output if exhausted, run
one engine step, on an error status finalize and terminate, otherwise emit
the filled output portion when the buffer is exactly full or all input is
consumed under finish or sync-flush. -/
def Deflate.pushIter (E : Engine σ) (cs : Nat) (m : Int) (self : Deflator σ) :
    IterResult σ :=
  let strmA := allocIfNeeded cs self.strm
  let stepped := E.deflate strmA m
  let strm1 := stepped.1
  let status := stepped.2
  if status ≠ Z_STREAM_END ∧ status ≠ Z_OK then
    let d := Deflate.onEnd { self with strm := strm1 } status
    { self := { d with ended := true }, trace := [.onEnd status], status := status,
      errored := true, allocated := self.strm.avail_out = 0, emitted := none }
  else
    let s1 := { self with strm := strm1 }
    if strm1.avail_out = 0 ∨ (strm1.avail_in = 0 ∧ (m = Z_FINISH ∨ m = Z_SYNC_FLUSH)) then
      let buf := shrinkBuf strm1.output strm1.next_out
      let chunk := if s1.options.«to» = "string" then Chunk.str (buf2binstring buf)
        else Chunk.bytes buf
      { self := Deflate.onData s1 chunk, trace := [.onData chunk], status := status,
        errored := false, allocated := self.strm.avail_out = 0, emitted := some chunk }
    else
      { self := s1, trace := [], status := status,
        errored := false, allocated := self.strm.avail_out = 0, emitted := none }

/-- The do-while chunk loop of push, indexed by fuel; `none` means the fuel
ran out. The boolean of the result marks the early error return. -/
def Deflate.pushLoop (E : Engine σ) (cs : Nat) (m : Int) :
    Nat → Deflator σ → List HookCall → Option (Deflator σ × List HookCall × Int × Bool)
  | 0, _, _ => none
  | fuel + 1, self, tr =>
    let r := Deflate.pushIter E cs m self
    if r.errored then some (r.self, tr ++ r.trace, r.status, true)
    else if (0 < r.self.strm.avail_in ∨ r.self.strm.avail_out = 0) ∧ r.status ≠ Z_STREAM_END then
      Deflate.pushLoop E cs m fuel r.self (tr ++ r.trace)
    else some (r.self, tr ++ r.trace, r.status, false)

/-- Binding of the converted input into the stream at the top of push. -/
def Deflate.pushEntry (self : Deflator σ) (data : Data) : Deflator σ :=
  { self with strm := { self.strm with
      input := dataToBytes data, next_in := 0, avail_in := (dataToBytes data).length } }

/-- The push operation: early false return on a terminated driver, mode
normalization, input binding, the chunk loop, then the finish / sync-flush /
plain epilogues. Returns the driver, the boolean push result and the hook
calls made, or `none` when the fuel ran out. -/
def Deflate.push (E : Engine σ) (fuel : Nat) (self : Deflator σ) (data : Data)
    (mode : PushMode) : Option (Deflator σ × Bool × List HookCall) :=
  if self.ended then some (self, false, [])
  else
    let m := normMode mode
    let s0 := Deflate.pushEntry self data
    match Deflate.pushLoop E self.options.chunkSize m fuel s0 [] with
    | none => none
    | some (d, tr, _, errored) =>
      if errored then some (d, false, tr)
      else if m = Z_FINISH then
        let fin := E.deflateEnd d.strm
        let d2 := Deflate.onEnd { d with strm := fin.1 } fin.2
        some ({ d2 with ended := true }, fin.2 == Z_OK, tr ++ [.onEnd fin.2])
      else if m = Z_SYNC_FLUSH then
        let d2 := Deflate.onEnd d Z_OK
        some ({ d2 with strm := { d2.strm with avail_out := 0 } }, true, tr ++ [.onEnd Z_OK])
      else some (d, true, tr)

/-- The Deflate constructor: merge options onto the defaults, adjust window
bits, initialize the engine (a non-ok status is a thrown message), attach the
header when present, register the dictionary when present (a non-ok status is
a thrown message). `s0` is the initial opaque engine state. -/
def Deflate.new (E : Engine σ) (s0 : σ) (msgTable : Int → String)
    (options : Options) : Except String (Deflator σ) :=
  let opt := adjustOpts (mergeOptions options)
  let strm0 : Strm σ := { state := s0, avail_out := 0 }
  let init := E.deflateInit2 strm0 opt.level opt.method opt.windowBits opt.memLevel opt.strategy
  if init.2 ≠ Z_OK then .error (msgTable init.2)
  else
    let strm2 := match opt.header with
      | some hdr => (E.deflateSetHeader init.1 hdr).1
      | none => init.1
    match opt.dictionary with
    | none =>
      .ok { options := opt, err := 0, msg := "", ended := false, chunks := [],
            result := none, dict_set := false, strm := strm2 }
    | some dictData =>
      let dict := dataToBytes dictData
      let setDict := E.deflateSetDictionary strm2 dict
      if setDict.2 ≠ Z_OK then .error (msgTable setDict.2)
      else
        .ok { options := opt, err := 0, msg := "", ended := false, chunks := [],
              result := none, dict_set := true, strm := setDict.1 }

/-- One-shot deflate: construct a driver, push the whole input with the
boolean finish shorthand, throw the driver's message (or the message-table
entry for its error code when the message is empty) on a non-zero error
code, otherwise return the aggregated result. -/
def deflate (E : Engine σ) (s0 : σ) (msgTable : Int → String) (fuel : Nat)
    (input : Data) (options : Options) : Option (Except String (Option Chunk)) :=
  match Deflate.new E s0 msgTable options with
  | .error e => some (.error e)
  | .ok deflator =>
    match Deflate.push E fuel deflator input (.bool true) with
    | none => none
    | some (d, _, _) =>
      if d.err ≠ 0 then some (.error (if d.msg = "" then msgTable d.err else d.msg))
      else some (.ok d.result)

/-- One-shot raw deflate: set `raw := true` on the caller's options object
(defaulting a missing object to an empty one) and delegate. The second
component is the caller-visible options object after the call; the property
write mutates the very object the caller passed in. -/
def deflateRaw (E : Engine σ) (s0 : σ) (msgTable : Int → String) (fuel : Nat)
    (input : Data) (options : Option Options) :
    Option (Except String (Option Chunk)) × Options :=
  let opts0 := options.getD {}
  let opts := { opts0 with raw := true }
  (deflate E s0 msgTable fuel input opts, opts)

/-- One-shot gzip: set `gzip := true` on the caller's options object and
delegate; the second component is the caller-visible options object after
the call. -/
def gzip (E : Engine σ) (s0 : σ) (msgTable : Int → String) (fuel : Nat)
    (input : Data) (options : Option Options) :
    Option (Except String (Option Chunk)) × Options :=
  let opts0 := options.getD {}
  let opts := { opts0 with gzip := true }
  (deflate E s0 msgTable fuel input opts, opts)

/-- Caller-visible options object after `new Deflate(options)`: the
constructor merges into a fresh object (assign onto a fresh defaults
literal) and never writes to the caller's object. -/
def Deflate.newOptionsAfter (options : Options) : Options := options

/-- Statuses of the onEnd calls of a trace, in order. -/
def onEndCalls (tr : List HookCall) : List Int :=
  tr.filterMap (fun c => match c with | .onEnd s => some s | _ => none)

/-- Byte concatenation of the onData calls of a trace, in order. -/
def onDataBytes (tr : List HookCall) : List Nat :=
  (tr.filterMap (fun c => match c with | .onData ch => some ch.toBytes | _ => none)).flatten

/-- A degenerate engine for concrete instantiations: every step consumes all
remaining input and reports the fixed status `st`. -/
def constEngine (st : Int) : Engine Unit where
  deflateInit2 strm _ _ _ _ _ := (strm, 0)
  deflate strm _ := ({ strm with next_in := strm.next_in + strm.avail_in, avail_in := 0 }, st)
  deflateEnd strm := (strm, 0)
  deflateSetHeader strm _ := (strm, 0)
  deflateSetDictionary strm _ := (strm, 0)

/-- A concrete driver with chunk capacity 1, for instantiating theorems. -/
def testSelf1 : Deflator Unit :=
  { options := mergeOptions { chunkSize := some 1 }, err := 0, msg := "", ended := false,
    chunks := [], result := none, dict_set := false, strm := { state := () } }

theorem onEndCalls_append (a b : List HookCall) :
    onEndCalls (a ++ b) = onEndCalls a ++ onEndCalls b := by
  unfold onEndCalls
  exact List.filterMap_append a b _

theorem flattenAux_eq (chunks : List (List Nat)) : ∀ pre : List Nat,
    (chunks.foldl (fun acc chunk => (writeAt acc.1 acc.2 chunk, acc.2 + chunk.length))
      (pre ++ List.replicate ((chunks.map List.length).sum) 0, pre.length)).1
      = pre ++ chunks.flatten := by
  induction chunks with
  | nil =>
    intro pre
    simp
  | cons c rest ih =>
    intro pre
    have hw : writeAt (pre ++ List.replicate (((c :: rest).map List.length).sum) 0) pre.length c
        = (pre ++ c) ++ List.replicate ((rest.map List.length).sum) 0 := by
      unfold writeAt
      rw [List.take_left, List.drop_append c.length, List.drop_replicate]
      have hs : ((c :: rest).map List.length).sum - c.length = (rest.map List.length).sum := by
        simp only [List.map_cons, List.sum_cons]
        omega
      rw [hs, List.append_assoc]
    have hlen : pre.length + c.length = (pre ++ c).length := by simp
    simp only [List.foldl_cons, hw, hlen]
    rw [ih (pre ++ c)]
    simp

theorem flattenChunks_eq_flatten (chunks : List (List Nat)) :
    flattenChunks chunks = chunks.flatten := by
  have h := flattenAux_eq chunks []
  simpa [flattenChunks] using h

/-- C4: every push call on a terminated driver returns false immediately,
leaves the driver (and hence the stream state it carries) unchanged, and
calls neither the emission hook nor the end hook. -/
theorem push_after_ended (σ : Type) (E : Engine σ) (fuel : Nat) (self : Deflator σ)
    (data : Data) (mode : PushMode) (h : self.ended = true) :
    Deflate.push E fuel self data mode = some (self, false, []) := by
  unfold Deflate.push
  simp [h]

theorem push_after_ended_witness :
    Deflate.push (constEngine 1) 5 { testSelf1 with ended := true } (.bytes [1, 2]) (.int 2)
      = some ({ testSelf1 with ended := true }, false, []) :=
  push_after_ended Unit (constEngine 1) 5 { testSelf1 with ended := true }
    (.bytes [1, 2]) (.int 2) rfl

/-- C5: exactly one of the two mutually exclusive window-bits adjustments is
applied to the merged configuration, and the constructor initializes the
engine from the adjusted configuration; raw with positive window bits
negates, else gzip with window bits strictly between 0 and 16 adds 16, else
the value is unchanged; in particular raw gives -15, gzip gives 31, and
neither flag leaves 15. -/
theorem windowBits_polarity (options : Options) (σ : Type) (E : Engine σ) (s0 : σ)
    (msgTable : Int → String) :
    ((mergeOptions options).raw = true ∧ 0 < (mergeOptions options).windowBits →
      (adjustOpts (mergeOptions options)).windowBits = -(mergeOptions options).windowBits)
  ∧ (¬((mergeOptions options).raw = true ∧ 0 < (mergeOptions options).windowBits) →
      ((mergeOptions options).gzip = true ∧ 0 < (mergeOptions options).windowBits
          ∧ (mergeOptions options).windowBits < 16) →
      (adjustOpts (mergeOptions options)).windowBits = (mergeOptions options).windowBits + 16)
  ∧ (¬((mergeOptions options).raw = true ∧ 0 < (mergeOptions options).windowBits) →
      ¬((mergeOptions options).gzip = true ∧ 0 < (mergeOptions options).windowBits
          ∧ (mergeOptions options).windowBits < 16) →
      adjustOpts (mergeOptions options) = mergeOptions options)
  ∧ (∀ dfl, Deflate.new E s0 msgTable options = .ok dfl →
      dfl.options = adjustOpts (mergeOptions options))
  ∧ (adjustOpts (mergeOptions { raw := true })).windowBits = -15
  ∧ (adjustOpts (mergeOptions { gzip := true })).windowBits = 31
  ∧ (adjustOpts (mergeOptions {})).windowBits = 15 := by
  refine ⟨?_, ?_, ?_, ?_, by decide, by decide, by decide⟩
  · intro h
    simp [adjustOpts, h.1, h.2]
  · intro h1 h2
    rw [adjustOpts, if_neg (by simpa using h1), if_pos (by simpa using h2)]
  · intro h1 h2
    rw [adjustOpts, if_neg (by simpa using h1), if_neg (by simpa using h2)]
  · intro dfl h
    simp only [Deflate.new] at h
    split at h
    · simp at h
    · split at h
      · simp only [Except.ok.injEq] at h
        subst h
        rfl
      · split at h
        · simp at h
        · simp only [Except.ok.injEq] at h
          subst h
          rfl

theorem windowBits_polarity_witness :
    (adjustOpts (mergeOptions { raw := true, windowBits := some 13 })).windowBits = -13 := by
  have h := (windowBits_polarity { raw := true, windowBits := some 13 }
    Unit (constEngine 0) () (fun _ => "")).1 (by decide)
  simpa using h

/-- C6: the default emission hook appends each chunk in emission order; the
default end hook sets `result` to the in-order concatenation of the pending
chunks (byte concatenation for binary output, string concatenation for
textual output) exactly on the success status, otherwise leaves `result` as
it was (hence unset when never set), and in all cases clears the pending
list, records the status as the error code and copies the stream's
diagnostic message; the byte aggregation is plain in-order concatenation. -/
theorem default_hooks_spec (σ : Type) (self : Deflator σ) (chunk : Chunk)
    (status : Int) (l : List (List Nat)) :
    Deflate.onData self chunk = { self with chunks := self.chunks ++ [chunk] }
  ∧ (Deflate.onEnd self status).chunks = []
  ∧ (Deflate.onEnd self status).err = status
  ∧ (Deflate.onEnd self status).msg = self.strm.msg
  ∧ (Deflate.onEnd self status).result =
      (if status = Z_OK then
        some (if self.options.«to» = "string"
          then Chunk.str (String.join (self.chunks.map Chunk.toStr))
          else Chunk.bytes (flattenChunks (self.chunks.map Chunk.toBytes)))
       else self.result)
  ∧ flattenChunks l = l.flatten := by
  refine ⟨rfl, ?_, ?_, ?_, ?_, flattenChunks_eq_flatten l⟩
  all_goals
    unfold Deflate.onEnd
    by_cases h1 : status = Z_OK <;> by_cases h2 : self.options.«to» = "string" <;>
      simp [h1, h2]

/-- C8: counter-evidence for the status-code claim — src/lib/zlib/constants.js
assigns Z_ERRNO the value 1, which coincides with Z_STREAM_END, and
Z_STREAM_ERROR the value 2 = Z_NEED_DICT, so the error codes are not
negative/other values distinct from 0 and 1 and the code-to-message mapping
cannot be unambiguous (upstream zlib uses -1..-5 here; the file kept only
Z_VERSION_ERROR negative). -/
theorem constants_error_code_collision :
    zconst.Z_OK = 0 ∧ zconst.Z_STREAM_END = 1
  ∧ zconst.Z_ERRNO = zconst.Z_STREAM_END
  ∧ zconst.Z_STREAM_ERROR = zconst.Z_NEED_DICT
  ∧ ¬(zconst.Z_ERRNO ≠ 0 ∧ zconst.Z_ERRNO ≠ 1) := by
  decide

/-- C10: deflateRaw and gzip write the forced flag onto the very options
object the caller passed in (the caller-visible object after the call
carries raw respectively gzip set to true, with a missing object defaulted
to an empty one) and delegate to deflate on that object, whereas the
constructor merges into a fresh object and leaves the caller's options
unchanged. -/
theorem oneshot_options_mutation (σ : Type) (E : Engine σ) (s0 : σ)
    (msgTable : Int → String) (fuel : Nat) (input : Data) (o : Options) :
    (deflateRaw E s0 msgTable fuel input (some o)).2 = { o with raw := true }
  ∧ (gzip E s0 msgTable fuel input (some o)).2 = { o with gzip := true }
  ∧ (deflateRaw E s0 msgTable fuel input (some o)).1
      = deflate E s0 msgTable fuel input { o with raw := true }
  ∧ (gzip E s0 msgTable fuel input (some o)).1
      = deflate E s0 msgTable fuel input { o with gzip := true }
  ∧ (deflateRaw E s0 msgTable fuel input none).2 = { ({} : Options) with raw := true }
  ∧ Deflate.newOptionsAfter o = o :=
  ⟨rfl, rfl, rfl, rfl, rfl, rfl⟩

/-- C1: in every iteration of the push chunk loop a fresh buffer of the
configured chunk capacity with output cursor 0 and full remaining capacity
is allocated exactly when the remaining output capacity is 0; after the
engine step the filled output portion (0 to the output cursor) is emitted
through the emission hook exactly when the buffer is exactly full or all
input is consumed under finish or sync-flush mode, converted to a binary
string under the string output selector; and the loop continues exactly
while (remaining input > 0 or remaining capacity = 0) and the status is not
stream-end. -/
theorem push_chunk_loop_spec (σ : Type) (E : Engine σ) (cs : Nat) (m : Int)
    (self : Deflator σ) (fuel : Nat) (tr : List HookCall) :
    ((Deflate.pushIter E cs m self).allocated = true ↔ self.strm.avail_out = 0)
  ∧ (self.strm.avail_out = 0 →
      allocIfNeeded cs self.strm
        = { self.strm with output := List.replicate cs 0, next_out := 0, avail_out := cs })
  ∧ (self.strm.avail_out ≠ 0 → allocIfNeeded cs self.strm = self.strm)
  ∧ ((Deflate.pushIter E cs m self).errored = false →
      ((Deflate.pushIter E cs m self).emitted.isSome = true ↔
        ((E.deflate (allocIfNeeded cs self.strm) m).1.avail_out = 0
          ∨ ((E.deflate (allocIfNeeded cs self.strm) m).1.avail_in = 0
              ∧ (m = Z_FINISH ∨ m = Z_SYNC_FLUSH)))))
  ∧ (∀ c, (Deflate.pushIter E cs m self).emitted = some c →
      (Deflate.pushIter E cs m self).trace = [.onData c]
      ∧ c = (if self.options.«to» = "string"
          then Chunk.str (buf2binstring (shrinkBuf
            (E.deflate (allocIfNeeded cs self.strm) m).1.output
            (E.deflate (allocIfNeeded cs self.strm) m).1.next_out))
          else Chunk.bytes (shrinkBuf
            (E.deflate (allocIfNeeded cs self.strm) m).1.output
            (E.deflate (allocIfNeeded cs self.strm) m).1.next_out)))
  ∧ (Deflate.pushLoop E cs m (fuel + 1) self tr =
      (if (Deflate.pushIter E cs m self).errored then
        some ((Deflate.pushIter E cs m self).self, tr ++ (Deflate.pushIter E cs m self).trace,
          (Deflate.pushIter E cs m self).status, true)
      else if (0 < (Deflate.pushIter E cs m self).self.strm.avail_in
            ∨ (Deflate.pushIter E cs m self).self.strm.avail_out = 0)
          ∧ (Deflate.pushIter E cs m self).status ≠ Z_STREAM_END then
        Deflate.pushLoop E cs m fuel (Deflate.pushIter E cs m self).self
          (tr ++ (Deflate.pushIter E cs m self).trace)
      else
        some ((Deflate.pushIter E cs m self).self, tr ++ (Deflate.pushIter E cs m self).trace,
          (Deflate.pushIter E cs m self).status, false))) := by
  refine ⟨?_, ?_, ?_, ?_, ?_, rfl⟩
  · by_cases h : self.strm.avail_out = 0 <;>
      · unfold Deflate.pushIter
        by_cases h1 : ((E.deflate (allocIfNeeded cs self.strm) m).2 ≠ Z_STREAM_END
            ∧ (E.deflate (allocIfNeeded cs self.strm) m).2 ≠ Z_OK) <;>
          by_cases h2 : ((E.deflate (allocIfNeeded cs self.strm) m).1.avail_out = 0
            ∨ ((E.deflate (allocIfNeeded cs self.strm) m).1.avail_in = 0
                ∧ (m = Z_FINISH ∨ m = Z_SYNC_FLUSH))) <;>
          simp [h1, h2, h]
  · intro h
    unfold allocIfNeeded
    rw [if_pos h]
  · intro h
    unfold allocIfNeeded
    rw [if_neg h]
  · unfold Deflate.pushIter
    by_cases h1 : ((E.deflate (allocIfNeeded cs self.strm) m).2 ≠ Z_STREAM_END
        ∧ (E.deflate (allocIfNeeded cs self.strm) m).2 ≠ Z_OK) <;>
      by_cases h2 : ((E.deflate (allocIfNeeded cs self.strm) m).1.avail_out = 0
        ∨ ((E.deflate (allocIfNeeded cs self.strm) m).1.avail_in = 0
            ∧ (m = Z_FINISH ∨ m = Z_SYNC_FLUSH))) <;>
      simp [h1, h2]
  · intro c
    unfold Deflate.pushIter
    by_cases h1 : ((E.deflate (allocIfNeeded cs self.strm) m).2 ≠ Z_STREAM_END
        ∧ (E.deflate (allocIfNeeded cs self.strm) m).2 ≠ Z_OK) <;>
      by_cases h2 : ((E.deflate (allocIfNeeded cs self.strm) m).1.avail_out = 0
        ∨ ((E.deflate (allocIfNeeded cs self.strm) m).1.avail_in = 0
            ∧ (m = Z_FINISH ∨ m = Z_SYNC_FLUSH))) <;>
      by_cases h3 : self.options.«to» = "string" <;>
      simp [h1, h2, h3] <;> intro h4 <;> exact ⟨h4, h4.symm⟩

theorem push_chunk_loop_spec_witness :
    allocIfNeeded 1 testSelf1.strm
      = { testSelf1.strm with output := List.replicate 1 0, next_out := 0, avail_out := 1 } :=
  (push_chunk_loop_spec Unit (constEngine 0) 1 4 testSelf1 0 []).2.1 rfl

theorem pushIter_ok_inv (σ : Type) (E : Engine σ) (cs : Nat) (m : Int) (self : Deflator σ)
    (h : (Deflate.pushIter E cs m self).errored = false) :
    (Deflate.pushIter E cs m self).self.ended = self.ended
  ∧ (Deflate.pushIter E cs m self).self.err = self.err
  ∧ (Deflate.pushIter E cs m self).self.msg = self.msg
  ∧ (Deflate.pushIter E cs m self).self.result = self.result
  ∧ (Deflate.pushIter E cs m self).self.options = self.options
  ∧ onEndCalls (Deflate.pushIter E cs m self).trace = [] := by
  unfold Deflate.pushIter at h ⊢
  by_cases h1 : ((E.deflate (allocIfNeeded cs self.strm) m).2 ≠ Z_STREAM_END
      ∧ (E.deflate (allocIfNeeded cs self.strm) m).2 ≠ Z_OK)
  · simp [h1] at h
  · by_cases h2 : ((E.deflate (allocIfNeeded cs self.strm) m).1.avail_out = 0
        ∨ ((E.deflate (allocIfNeeded cs self.strm) m).1.avail_in = 0
            ∧ (m = Z_FINISH ∨ m = Z_SYNC_FLUSH))) <;>
      simp [h1, h2, Deflate.onData, onEndCalls]

theorem pushIter_err_inv (σ : Type) (E : Engine σ) (cs : Nat) (m : Int) (self : Deflator σ)
    (h : (Deflate.pushIter E cs m self).errored = true) :
    (Deflate.pushIter E cs m self).trace = [.onEnd (Deflate.pushIter E cs m self).status]
  ∧ (Deflate.pushIter E cs m self).self.ended = true
  ∧ (Deflate.pushIter E cs m self).self.err = (Deflate.pushIter E cs m self).status
  ∧ (Deflate.pushIter E cs m self).self.msg = (Deflate.pushIter E cs m self).self.strm.msg
  ∧ (Deflate.pushIter E cs m self).status ≠ Z_OK
  ∧ (Deflate.pushIter E cs m self).status ≠ Z_STREAM_END
  ∧ (Deflate.pushIter E cs m self).self.result = self.result := by
  unfold Deflate.pushIter at h ⊢
  by_cases h1 : ((E.deflate (allocIfNeeded cs self.strm) m).2 ≠ Z_STREAM_END
      ∧ (E.deflate (allocIfNeeded cs self.strm) m).2 ≠ Z_OK)
  · have hne : (E.deflate (allocIfNeeded cs self.strm) m).2 ≠ Z_OK := h1.2
    simp [h1, Deflate.onEnd, hne, h1.1, h1.2]
  · by_cases h2 : ((E.deflate (allocIfNeeded cs self.strm) m).1.avail_out = 0
        ∨ ((E.deflate (allocIfNeeded cs self.strm) m).1.avail_in = 0
            ∧ (m = Z_FINISH ∨ m = Z_SYNC_FLUSH))) <;>
      simp [h1, h2] at h

theorem pushLoop_ok_inv (σ : Type) (E : Engine σ) (cs : Nat) (m : Int) :
    ∀ (fuel : Nat) (self : Deflator σ) (tr : List HookCall) (d : Deflator σ)
      (tr2 : List HookCall) (st : Int),
      Deflate.pushLoop E cs m fuel self tr = some (d, tr2, st, false) →
      d.ended = self.ended ∧ d.err = self.err ∧ d.msg = self.msg ∧ d.result = self.result
      ∧ d.options = self.options
      ∧ ∃ extra, tr2 = tr ++ extra ∧ onEndCalls extra = [] := by
  intro fuel
  induction fuel with
  | zero =>
    intro self tr d tr2 st h
    simp [Deflate.pushLoop] at h
  | succ n ih =>
    intro self tr d tr2 st h
    rw [Deflate.pushLoop] at h
    by_cases he : (Deflate.pushIter E cs m self).errored
    · simp [he] at h
    · rw [if_neg (by simpa using he)] at h
      have h0 := pushIter_ok_inv σ E cs m self (by simpa using he)
      by_cases hc : (0 < (Deflate.pushIter E cs m self).self.strm.avail_in
          ∨ (Deflate.pushIter E cs m self).self.strm.avail_out = 0)
          ∧ (Deflate.pushIter E cs m self).status ≠ Z_STREAM_END
      · rw [if_pos hc] at h
        obtain ⟨e1, e2, e3, e4, e5, extra, hext, hend⟩ := ih _ _ _ _ _ h
        refine ⟨e1.trans h0.1, e2.trans h0.2.1, e3.trans h0.2.2.1, e4.trans h0.2.2.2.1,
          e5.trans h0.2.2.2.2.1, (Deflate.pushIter E cs m self).trace ++ extra, ?_, ?_⟩
        · rw [hext, List.append_assoc]
        · rw [onEndCalls_append, hend, h0.2.2.2.2.2]
          rfl
      · rw [if_neg hc] at h
        simp only [Option.some.injEq, Prod.mk.injEq] at h
        obtain ⟨hd, htr, _, _⟩ := h
        subst hd
        subst htr
        exact ⟨h0.1, h0.2.1, h0.2.2.1, h0.2.2.2.1, h0.2.2.2.2.1,
          (Deflate.pushIter E cs m self).trace, rfl, h0.2.2.2.2.2⟩

theorem pushLoop_err_inv (σ : Type) (E : Engine σ) (cs : Nat) (m : Int) :
    ∀ (fuel : Nat) (self : Deflator σ) (tr : List HookCall) (d : Deflator σ)
      (tr2 : List HookCall) (st : Int),
      Deflate.pushLoop E cs m fuel self tr = some (d, tr2, st, true) →
      d.ended = true ∧ d.err = st ∧ d.msg = d.strm.msg
      ∧ st ≠ Z_OK ∧ st ≠ Z_STREAM_END ∧ d.result = self.result
      ∧ ∃ extra, tr2 = tr ++ extra ∧ onEndCalls extra = [st] := by
  intro fuel
  induction fuel with
  | zero =>
    intro self tr d tr2 st h
    simp [Deflate.pushLoop] at h
  | succ n ih =>
    intro self tr d tr2 st h
    rw [Deflate.pushLoop] at h
    by_cases he : (Deflate.pushIter E cs m self).errored
    · rw [if_pos he] at h
      simp only [Option.some.injEq, Prod.mk.injEq] at h
      obtain ⟨hd, htr, hst, _⟩ := h
      subst hd
      subst htr
      subst hst
      have h0 := pushIter_err_inv σ E cs m self he
      refine ⟨h0.2.1, h0.2.2.1, h0.2.2.2.1, h0.2.2.2.2.1, h0.2.2.2.2.2.1,
        h0.2.2.2.2.2.2, (Deflate.pushIter E cs m self).trace, rfl, ?_⟩
      rw [h0.1]
      rfl
    · rw [if_neg (by simpa using he)] at h
      have h0 := pushIter_ok_inv σ E cs m self (by simpa using he)
      by_cases hc : (0 < (Deflate.pushIter E cs m self).self.strm.avail_in
          ∨ (Deflate.pushIter E cs m self).self.strm.avail_out = 0)
          ∧ (Deflate.pushIter E cs m self).status ≠ Z_STREAM_END
      · rw [if_pos hc] at h
        obtain ⟨e1, e2, e3, e4, e5, e6, extra, hext, hend⟩ := ih _ _ _ _ _ h
        refine ⟨e1, e2, e3, e4, e5, e6.trans h0.2.2.2.1,
          (Deflate.pushIter E cs m self).trace ++ extra, ?_, ?_⟩
        · rw [hext, List.append_assoc]
        · rw [onEndCalls_append, hend, h0.2.2.2.2.2]
          rfl
      · rw [if_neg hc] at h
        simp at h

theorem onEnd_ended (σ : Type) (self : Deflator σ) (status : Int) :
    (Deflate.onEnd self status).ended = self.ended := by
  unfold Deflate.onEnd
  split
  · split <;> rfl
  · rfl

/-- C2: after a push whose chunk loop completes without an engine error:
finish mode finalizes the engine, calls the end hook exactly once with the
finalization status, marks the driver terminated and returns (status = ok);
sync-flush mode calls the end hook exactly once with the ok status, resets
the remaining output capacity to 0, leaves the driver unterminated and
returns true; any other mode (no-flush) returns true with no end-hook
call. -/
theorem push_finalization_spec (σ : Type) (E : Engine σ) (fuel : Nat)
    (self : Deflator σ) (data : Data) (mode : PushMode) (d : Deflator σ)
    (tr : List HookCall) (st : Int)
    (h0 : self.ended = false)
    (hl : Deflate.pushLoop E self.options.chunkSize (normMode mode) fuel
        (Deflate.pushEntry self data) [] = some (d, tr, st, false)) :
    (normMode mode = Z_FINISH →
      Deflate.push E fuel self data mode
        = some ({ Deflate.onEnd { d with strm := (E.deflateEnd d.strm).1 }
              (E.deflateEnd d.strm).2 with ended := true },
            (E.deflateEnd d.strm).2 == Z_OK, tr ++ [.onEnd (E.deflateEnd d.strm).2])
      ∧ ({ Deflate.onEnd { d with strm := (E.deflateEnd d.strm).1 }
            (E.deflateEnd d.strm).2 with ended := true } : Deflator σ).ended = true
      ∧ onEndCalls (tr ++ [.onEnd (E.deflateEnd d.strm).2]) = [(E.deflateEnd d.strm).2])
  ∧ (normMode mode = Z_SYNC_FLUSH →
      Deflate.push E fuel self data mode
        = some ({ Deflate.onEnd d Z_OK with
              strm := { (Deflate.onEnd d Z_OK).strm with avail_out := 0 } },
            true, tr ++ [.onEnd Z_OK])
      ∧ ({ Deflate.onEnd d Z_OK with
            strm := { (Deflate.onEnd d Z_OK).strm with avail_out := 0 } } : Deflator σ).ended = false
      ∧ ({ Deflate.onEnd d Z_OK with
            strm := { (Deflate.onEnd d Z_OK).strm with avail_out := 0 } } : Deflator σ).strm.avail_out = 0
      ∧ onEndCalls (tr ++ [.onEnd Z_OK]) = [Z_OK])
  ∧ (normMode mode ≠ Z_FINISH → normMode mode ≠ Z_SYNC_FLUSH →
      Deflate.push E fuel self data mode = some (d, true, tr) ∧ onEndCalls tr = []) := by
  have hinv := pushLoop_ok_inv σ E self.options.chunkSize (normMode mode) fuel
    (Deflate.pushEntry self data) [] d tr st hl
  obtain ⟨hended, _, _, _, _, extra, hext, hend⟩ := hinv
  have htrEnd : onEndCalls tr = [] := by
    rw [hext]
    simpa [onEndCalls_append] using hend
  have hdended : d.ended = false := by
    rw [hended]
    exact h0
  refine ⟨?_, ?_, ?_⟩
  · intro hm
    refine ⟨?_, rfl, ?_⟩
    · rw [hm] at hl
      unfold Deflate.push
      simp [h0, hl, hm]
    · rw [onEndCalls_append, htrEnd]
      rfl
  · intro hm
    refine ⟨?_, ?_, rfl, ?_⟩
    · rw [hm] at hl
      unfold Deflate.push
      have hne : Z_SYNC_FLUSH ≠ Z_FINISH := by decide
      simp [h0, hl, hm, hne]
    · simpa [onEnd_ended] using hdended
    · rw [onEndCalls_append, htrEnd]
      rfl
  · intro hm1 hm2
    refine ⟨?_, htrEnd⟩
    unfold Deflate.push
    simp [h0, hl, hm1, hm2]

/-- The driver state after the chunk loop of the finish-mode push used to
instantiate the finalization theorem. -/
def w2d : Deflator Unit :=
  { options := mergeOptions { chunkSize := some 1 }, err := 0, msg := "", ended := false,
    chunks := [Chunk.bytes []], result := none, dict_set := false,
    strm := { input := [], next_in := 0, avail_in := 0, output := [0],
              next_out := 0, avail_out := 1, state := () } }

theorem push_finalization_spec_witness :
    Deflate.push (constEngine 1) 1 testSelf1 (.bytes []) (.bool true)
      = some ({ Deflate.onEnd { w2d with strm := ((constEngine 1).deflateEnd w2d.strm).1 }
            ((constEngine 1).deflateEnd w2d.strm).2 with ended := true },
          ((constEngine 1).deflateEnd w2d.strm).2 == Z_OK,
          [HookCall.onData (Chunk.bytes [])] ++ [.onEnd ((constEngine 1).deflateEnd w2d.strm).2]) := by
  have h := push_finalization_spec Unit (constEngine 1) 1 testSelf1 (.bytes []) (.bool true)
    w2d [HookCall.onData (Chunk.bytes [])] 1 rfl (by decide)
  exact (h.1 rfl).1

/-- C3: a push on a non-terminated driver in which an engine step reports a
status that is neither ok nor stream-end returns false, fires the end hook
exactly once with that status, records it as the error code together with
the engine's diagnostic message, terminates the driver, and raises no
exception (push totally returns a value on this path). -/
theorem push_error_spec (σ : Type) (E : Engine σ) (fuel : Nat) (self : Deflator σ)
    (data : Data) (mode : PushMode) (d : Deflator σ) (tr : List HookCall) (st : Int)
    (h0 : self.ended = false)
    (hl : Deflate.pushLoop E self.options.chunkSize (normMode mode) fuel
        (Deflate.pushEntry self data) [] = some (d, tr, st, true)) :
    Deflate.push E fuel self data mode = some (d, false, tr)
  ∧ onEndCalls tr = [st]
  ∧ st ≠ Z_OK ∧ st ≠ Z_STREAM_END
  ∧ d.err = st ∧ d.msg = d.strm.msg ∧ d.ended = true
  ∧ d.result = self.result := by
  have hinv := pushLoop_err_inv σ E self.options.chunkSize (normMode mode) fuel
    (Deflate.pushEntry self data) [] d tr st hl
  obtain ⟨he, herr, hmsg, hok, hse, hres, extra, hext, hend⟩ := hinv
  refine ⟨?_, ?_, hok, hse, herr, hmsg, he, hres⟩
  · unfold Deflate.push
    simp [h0, hl]
  · rw [hext]
    simpa [onEndCalls_append] using hend

/-- The driver state after the failing chunk loop used to instantiate the
error-path theorem. -/
def w3d : Deflator Unit :=
  { options := mergeOptions { chunkSize := some 1 }, err := -2, msg := "", ended := true,
    chunks := [], result := none, dict_set := false,
    strm := { input := [], next_in := 0, avail_in := 0, output := [0],
              next_out := 0, avail_out := 1, state := () } }

theorem push_error_spec_witness :
    Deflate.push (constEngine (-2)) 1 testSelf1 (.bytes []) (.bool true)
      = some (w3d, false, [HookCall.onEnd (-2)])
  ∧ onEndCalls [HookCall.onEnd (-2)] = [-2] := by
  have h := push_error_spec Unit (constEngine (-2)) 1 testSelf1 (.bytes []) (.bool true)
    w3d [HookCall.onEnd (-2)] (-2) rfl (by decide)
  exact ⟨h.1, h.2.1⟩

/-- C7: the one-shot deflate builds a driver from the options, performs one
push with the boolean finish shorthand (which normalizes to finish mode) on
the full input, throws the driver's message — or the message-table entry
keyed by its error code when no message is set — exactly when the error
code is non-zero after the push, and otherwise returns the aggregated
result; deflateRaw and gzip force the raw respectively gzip flag and
delegate to the same construction-and-push sequence. -/
theorem deflate_oneshot_spec (σ : Type) (E : Engine σ) (s0 : σ)
    (msgTable : Int → String) (fuel : Nat) (input : Data) (options : Options) :
    (∀ e, Deflate.new E s0 msgTable options = .error e →
      deflate E s0 msgTable fuel input options = some (.error e))
  ∧ (∀ dfl d b tr, Deflate.new E s0 msgTable options = .ok dfl →
      Deflate.push E fuel dfl input (.bool true) = some (d, b, tr) →
      deflate E s0 msgTable fuel input options
        = (if d.err ≠ 0 then some (.error (if d.msg = "" then msgTable d.err else d.msg))
           else some (.ok d.result)))
  ∧ normMode (.bool true) = Z_FINISH
  ∧ (∀ o, (deflateRaw E s0 msgTable fuel input (some o)).1
      = deflate E s0 msgTable fuel input { o with raw := true })
  ∧ (∀ o, (gzip E s0 msgTable fuel input (some o)).1
      = deflate E s0 msgTable fuel input { o with gzip := true }) := by
  refine ⟨?_, ?_, rfl, fun o => rfl, fun o => rfl⟩
  · intro e h
    unfold deflate
    rw [h]
  · intro dfl d b tr h1 h2
    unfold deflate
    simp [h1, h2]

/-- The driver state after the one-shot finishing push used to instantiate
the one-shot theorem. -/
def w7d : Deflator Unit :=
  { options := mergeOptions { chunkSize := some 1 }, err := 0, msg := "", ended := true,
    chunks := [], result := some (Chunk.bytes []), dict_set := false,
    strm := { input := [], next_in := 0, avail_in := 0, output := [0],
              next_out := 0, avail_out := 1, state := () } }

theorem deflate_oneshot_spec_witness :
    deflate (constEngine 1) () (fun _ => "err") 1 (Data.bytes []) { chunkSize := some 1 }
      = some (.ok (some (Chunk.bytes []))) := by
  have h := (deflate_oneshot_spec Unit (constEngine 1) () (fun _ => "err") 1 (Data.bytes [])
      { chunkSize := some 1 }).2.1 testSelf1 w7d true
      ([HookCall.onData (Chunk.bytes [])] ++ [HookCall.onEnd 0]) rfl (by decide)
  simpa [w7d] using h

/-- Modelled from the spec: the opaque internal state of the block codec
engine contract — the input consumed so far, the output bytes awaiting
copy-out, and whether a finish-mode drain has begun. -/
structure SpecState where
  acc : List Nat := []
  pending : List Nat := []
  finishing : Bool := false
deriving DecidableEq

/-- Modelled from the spec: a block codec engine satisfying the engine
contract — each step consumes all remaining input and advances both
cursors; the first finish-mode step freezes the full output byte stream
`encode` of the accumulated input as pending; every step copies as many
pending bytes as fit in the remaining output capacity and reports stream
end exactly once finishing and nothing remains pending. -/
def specEngine (encode : List Nat → List Nat) : Engine SpecState where
  deflateInit2 strm _ _ _ _ _ := (strm, 0)
  deflateEnd strm := (strm, 0)
  deflateSetHeader strm _ := (strm, 0)
  deflateSetDictionary strm _ := (strm, 0)
  deflate strm mode :=
    let consumed : List Nat := (strm.input.drop strm.next_in).take strm.avail_in
    let st1 : SpecState := { strm.state with acc := strm.state.acc ++ consumed }
    let st2 : SpecState := if mode = Z_FINISH ∧ st1.finishing = false then
        { st1 with finishing := true, pending := encode st1.acc } else st1
    let k : Nat := min strm.avail_out st2.pending.length
    let strm2 := { strm with
      next_in := strm.next_in + strm.avail_in,
      avail_in := 0,
      total_in := strm.total_in + strm.avail_in,
      output := writeAt strm.output strm.next_out (st2.pending.take k),
      next_out := strm.next_out + k,
      avail_out := strm.avail_out - k,
      total_out := strm.total_out + k,
      state := { st2 with pending := st2.pending.drop k } }
    (strm2, if st2.finishing ∧ st2.pending.drop k = [] then Z_STREAM_END else Z_OK)

/-- Driver the constructor yields for options selecting chunk capacity
`cs`, under the spec engine. -/
def csDeflator (cs : Nat) : Deflator SpecState :=
  { options := mergeOptions { chunkSize := some cs }, err := 0, msg := "", ended := false,
    chunks := [], result := none, dict_set := false, strm := { state := {} } }

theorem onDataBytes_append (a b : List HookCall) :
    onDataBytes (a ++ b) = onDataBytes a ++ onDataBytes b := by
  unfold onDataBytes
  rw [List.filterMap_append, List.flatten_append]

theorem pushIter_drain (encode : List Nat → List Nat) (cs : Nat) (p : List Nat)
    (d : Deflator SpecState)
    (hto : d.options.«to» ≠ "string")
    (hin : d.strm.avail_in = 0) (hout : d.strm.avail_out = 0)
    (hfin : d.strm.state.finishing = true) (hpend : d.strm.state.pending = p) :
    (Deflate.pushIter (specEngine encode) cs Z_FINISH d).errored = false
  ∧ (Deflate.pushIter (specEngine encode) cs Z_FINISH d).status
      = (if p.drop (min cs p.length) = [] then Z_STREAM_END else Z_OK)
  ∧ (Deflate.pushIter (specEngine encode) cs Z_FINISH d).trace
      = [.onData (Chunk.bytes (p.take (min cs p.length)))]
  ∧ (Deflate.pushIter (specEngine encode) cs Z_FINISH d).self.strm.avail_in = 0
  ∧ (Deflate.pushIter (specEngine encode) cs Z_FINISH d).self.strm.avail_out
      = cs - min cs p.length
  ∧ (Deflate.pushIter (specEngine encode) cs Z_FINISH d).self.strm.state.finishing = true
  ∧ (Deflate.pushIter (specEngine encode) cs Z_FINISH d).self.strm.state.pending
      = p.drop (min cs p.length)
  ∧ (Deflate.pushIter (specEngine encode) cs Z_FINISH d).self.options = d.options := by
  have hk : min cs p.length ≤ p.length := Nat.min_le_right _ _
  have htake : (p.take (min cs p.length)).length = min cs p.length := by
    rw [List.length_take]
    omega
  have hshrink : shrinkBuf (writeAt (List.replicate cs 0) 0 (p.take (min cs p.length)))
      (min cs p.length) = p.take (min cs p.length) := by
    unfold shrinkBuf writeAt
    simp only [List.take_zero, List.nil_append, Nat.zero_add]
    exact List.take_left' htake
  by_cases hdone : p.drop (min cs p.length) = [] <;>
    unfold Deflate.pushIter allocIfNeeded specEngine <;>
    simp [hin, hout, hfin, hpend, hto, hdone, hshrink, Deflate.onData,
      Z_FINISH, Z_OK, Z_STREAM_END, Z_SYNC_FLUSH]

theorem pushIter_entry (encode : List Nat → List Nat) (cs : Nat) (b : List Nat) :
    (Deflate.pushIter (specEngine encode) cs Z_FINISH
        (Deflate.pushEntry (csDeflator cs) (.bytes b))).errored = false
  ∧ (Deflate.pushIter (specEngine encode) cs Z_FINISH
        (Deflate.pushEntry (csDeflator cs) (.bytes b))).status
      = (if (encode b).drop (min cs (encode b).length) = [] then Z_STREAM_END else Z_OK)
  ∧ (Deflate.pushIter (specEngine encode) cs Z_FINISH
        (Deflate.pushEntry (csDeflator cs) (.bytes b))).trace
      = [.onData (Chunk.bytes ((encode b).take (min cs (encode b).length)))]
  ∧ (Deflate.pushIter (specEngine encode) cs Z_FINISH
        (Deflate.pushEntry (csDeflator cs) (.bytes b))).self.strm.avail_in = 0
  ∧ (Deflate.pushIter (specEngine encode) cs Z_FINISH
        (Deflate.pushEntry (csDeflator cs) (.bytes b))).self.strm.avail_out
      = cs - min cs (encode b).length
  ∧ (Deflate.pushIter (specEngine encode) cs Z_FINISH
        (Deflate.pushEntry (csDeflator cs) (.bytes b))).self.strm.state.finishing = true
  ∧ (Deflate.pushIter (specEngine encode) cs Z_FINISH
        (Deflate.pushEntry (csDeflator cs) (.bytes b))).self.strm.state.pending
      = (encode b).drop (min cs (encode b).length)
  ∧ (Deflate.pushIter (specEngine encode) cs Z_FINISH
        (Deflate.pushEntry (csDeflator cs) (.bytes b))).self.options
      = (csDeflator cs).options := by
  have hk : min cs (encode b).length ≤ (encode b).length := Nat.min_le_right _ _
  have htake : ((encode b).take (min cs (encode b).length)).length
      = min cs (encode b).length := by
    rw [List.length_take]
    omega
  have hshrink : shrinkBuf (writeAt (List.replicate cs 0) 0
        ((encode b).take (min cs (encode b).length)))
      (min cs (encode b).length) = (encode b).take (min cs (encode b).length) := by
    unfold shrinkBuf writeAt
    simp only [List.take_zero, List.nil_append, Nat.zero_add]
    exact List.take_left' htake
  by_cases hdone : (encode b).drop (min cs (encode b).length) = [] <;>
    unfold Deflate.pushIter allocIfNeeded specEngine Deflate.pushEntry csDeflator <;>
    simp [hdone, hshrink, Deflate.onData, dataToBytes, mergeOptions,
      Z_FINISH, Z_OK, Z_STREAM_END, Z_SYNC_FLUSH]

theorem pushLoop_drain (encode : List Nat → List Nat) (cs : Nat) (hcs : 1 ≤ cs) :
    ∀ (fuel : Nat) (p : List Nat) (d : Deflator SpecState) (tr : List HookCall),
      p ≠ [] → p.length ≤ fuel →
      d.options.«to» ≠ "string" →
      d.strm.avail_in = 0 → d.strm.avail_out = 0 →
      d.strm.state.finishing = true → d.strm.state.pending = p →
      ∃ d2 extra, Deflate.pushLoop (specEngine encode) cs Z_FINISH fuel d tr
          = some (d2, tr ++ extra, Z_STREAM_END, false)
        ∧ onDataBytes extra = p := by
  intro fuel
  induction fuel with
  | zero =>
    intro p d tr hp hf
    exact absurd (List.eq_nil_of_length_eq_zero (Nat.le_zero.mp hf)) hp
  | succ n ih =>
    intro p d tr hp hf hto hin hout hfin hpend
    obtain ⟨he, hst, htr, hin2, hout2, hfin2, hpend2, hopt2⟩ :=
      pushIter_drain encode cs p d hto hin hout hfin hpend
    rw [Deflate.pushLoop]
    by_cases hdone : p.drop (min cs p.length) = []
    · have hsteq : (Deflate.pushIter (specEngine encode) cs Z_FINISH d).status
          = Z_STREAM_END := by rw [hst, if_pos hdone]
      have hklen : min cs p.length = p.length := by
        have := List.drop_eq_nil_iff.mp hdone
        omega
      refine ⟨(Deflate.pushIter (specEngine encode) cs Z_FINISH d).self,
        (Deflate.pushIter (specEngine encode) cs Z_FINISH d).trace, ?_, ?_⟩
      · rw [if_neg (by simp [he]), if_neg (by simp [hsteq]), hsteq]
      · rw [htr, hklen, List.take_length]
        simp [onDataBytes, Chunk.toBytes]
    · have hsteq : (Deflate.pushIter (specEngine encode) cs Z_FINISH d).status = Z_OK := by
        rw [hst, if_neg hdone]
      have hkcs : min cs p.length = cs := by
        have h2 : ¬ p.length ≤ min cs p.length := fun hle =>
          hdone (List.drop_eq_nil_iff.mpr hle)
        omega
      have hcont : (0 < (Deflate.pushIter (specEngine encode) cs Z_FINISH d).self.strm.avail_in
          ∨ (Deflate.pushIter (specEngine encode) cs Z_FINISH d).self.strm.avail_out = 0)
          ∧ (Deflate.pushIter (specEngine encode) cs Z_FINISH d).status ≠ Z_STREAM_END := by
        refine ⟨Or.inr ?_, ?_⟩
        · rw [hout2, hkcs]
          omega
        · rw [hsteq]
          decide
      obtain ⟨d2, extra, heq, hbytes⟩ := ih (p.drop cs)
        (Deflate.pushIter (specEngine encode) cs Z_FINISH d).self
        (tr ++ (Deflate.pushIter (specEngine encode) cs Z_FINISH d).trace)
        (by rw [← hkcs]; exact hdone)
        (by simp only [List.length_drop]; omega)
        (by rw [hopt2]; exact hto)
        hin2 (by rw [hout2, hkcs]; omega) hfin2 (by rw [hpend2, hkcs])
      refine ⟨d2, (Deflate.pushIter (specEngine encode) cs Z_FINISH d).trace ++ extra, ?_, ?_⟩
      · rw [if_neg (by simp [he]), if_pos hcont, heq, List.append_assoc]
      · rw [onDataBytes_append, hbytes, htr, hkcs]
        simp [onDataBytes, Chunk.toBytes]

theorem pushLoop_entry_concat (encode : List Nat → List Nat) (b : List Nat) (cs : Nat)
    (hcs : 1 ≤ cs) :
    ∃ dl trl, Deflate.pushLoop (specEngine encode) cs Z_FINISH ((encode b).length + 2)
        (Deflate.pushEntry (csDeflator cs) (.bytes b)) [] = some (dl, trl, Z_STREAM_END, false)
      ∧ onDataBytes trl = encode b := by
  obtain ⟨he, hst, htr, hin2, hout2, hfin2, hpend2, hopt2⟩ := pushIter_entry encode cs b
  have hfuel : (encode b).length + 2 = ((encode b).length + 1) + 1 := rfl
  rw [hfuel, Deflate.pushLoop]
  by_cases hdone : (encode b).drop (min cs (encode b).length) = []
  · have hsteq : (Deflate.pushIter (specEngine encode) cs Z_FINISH
        (Deflate.pushEntry (csDeflator cs) (.bytes b))).status = Z_STREAM_END := by
      rw [hst, if_pos hdone]
    have hklen : min cs (encode b).length = (encode b).length := by
      have := List.drop_eq_nil_iff.mp hdone
      omega
    refine ⟨(Deflate.pushIter (specEngine encode) cs Z_FINISH
        (Deflate.pushEntry (csDeflator cs) (.bytes b))).self,
      (Deflate.pushIter (specEngine encode) cs Z_FINISH
        (Deflate.pushEntry (csDeflator cs) (.bytes b))).trace, ?_, ?_⟩
    · rw [if_neg (by simp [he]), if_neg (by simp [hsteq]), hsteq, List.nil_append]
    · rw [htr, hklen, List.take_length]
      simp [onDataBytes, Chunk.toBytes]
  · have hsteq : (Deflate.pushIter (specEngine encode) cs Z_FINISH
        (Deflate.pushEntry (csDeflator cs) (.bytes b))).status = Z_OK := by
      rw [hst, if_neg hdone]
    have hkcs : min cs (encode b).length = cs := by
      have h2 : ¬ (encode b).length ≤ min cs (encode b).length := fun hle =>
        hdone (List.drop_eq_nil_iff.mpr hle)
      omega
    have hcont : (0 < (Deflate.pushIter (specEngine encode) cs Z_FINISH
          (Deflate.pushEntry (csDeflator cs) (.bytes b))).self.strm.avail_in
        ∨ (Deflate.pushIter (specEngine encode) cs Z_FINISH
          (Deflate.pushEntry (csDeflator cs) (.bytes b))).self.strm.avail_out = 0)
        ∧ (Deflate.pushIter (specEngine encode) cs Z_FINISH
          (Deflate.pushEntry (csDeflator cs) (.bytes b))).status ≠ Z_STREAM_END := by
      refine ⟨Or.inr ?_, ?_⟩
      · rw [hout2, hkcs]
        omega
      · rw [hsteq]
        decide
    obtain ⟨d2, extra, heq, hbytes⟩ := pushLoop_drain encode cs hcs ((encode b).length + 1)
      ((encode b).drop cs)
      (Deflate.pushIter (specEngine encode) cs Z_FINISH
        (Deflate.pushEntry (csDeflator cs) (.bytes b))).self
      ([] ++ (Deflate.pushIter (specEngine encode) cs Z_FINISH
        (Deflate.pushEntry (csDeflator cs) (.bytes b))).trace)
      (by rw [← hkcs]; exact hdone)
      (by simp only [List.length_drop]; omega)
      (by rw [hopt2]; simp [csDeflator, mergeOptions])
      hin2 (by rw [hout2, hkcs]; omega) hfin2 (by rw [hpend2, hkcs])
    refine ⟨d2, (Deflate.pushIter (specEngine encode) cs Z_FINISH
        (Deflate.pushEntry (csDeflator cs) (.bytes b))).trace ++ extra, ?_, ?_⟩
    · rw [if_neg (by simp [he]), if_pos hcont, heq]
      simp [List.append_assoc]
    · rw [onDataBytes_append, hbytes, htr, hkcs]
      simp only [onDataBytes, List.filterMap, Chunk.toBytes]
      simp [onDataBytes, Chunk.toBytes, List.take_append_drop]

theorem push_finish_eq (σ2 : Type) (E : Engine σ2) (fuel : Nat) (self : Deflator σ2)
    (data : Data) (d : Deflator σ2) (tr : List HookCall) (st : Int)
    (h0 : self.ended = false)
    (hl : Deflate.pushLoop E self.options.chunkSize Z_FINISH fuel
        (Deflate.pushEntry self data) [] = some (d, tr, st, false)) :
    Deflate.push E fuel self data (.bool true)
      = some ({ Deflate.onEnd { d with strm := (E.deflateEnd d.strm).1 }
            (E.deflateEnd d.strm).2 with ended := true },
          (E.deflateEnd d.strm).2 == Z_OK, tr ++ [.onEnd (E.deflateEnd d.strm).2]) := by
  have hnm : normMode (.bool true) = Z_FINISH := rfl
  unfold Deflate.push
  simp [h0, hl, hnm]

/-- C9: chunking transparency — with the block codec engine modelled from
the spec's engine contract as a deterministic byte-stream producer
`encode`, a finishing push of `b` on a driver built for chunk capacity `cs`
succeeds and emits chunks whose in-order byte concatenation equals
`encode b` for every capacity at least 1; hence the concatenation is the
same byte sequence regardless of the configured chunk capacity and only
the chunk boundaries differ. -/
theorem chunking_transparency (encode : List Nat → List Nat) (b : List Nat)
    (cs1 cs2 : Nat) (h1 : 1 ≤ cs1) (h2 : 1 ≤ cs2) :
    (∀ msgTable, Deflate.new (specEngine encode) {} msgTable { chunkSize := some cs1 }
        = .ok (csDeflator cs1))
  ∧ (∃ r1, Deflate.push (specEngine encode) ((encode b).length + 2) (csDeflator cs1)
        (.bytes b) (.bool true) = some r1 ∧ onDataBytes r1.2.2 = encode b)
  ∧ (∃ r2, Deflate.push (specEngine encode) ((encode b).length + 2) (csDeflator cs2)
        (.bytes b) (.bool true) = some r2 ∧ onDataBytes r2.2.2 = encode b)
  ∧ (∀ r1 r2, Deflate.push (specEngine encode) ((encode b).length + 2) (csDeflator cs1)
        (.bytes b) (.bool true) = some r1 →
      Deflate.push (specEngine encode) ((encode b).length + 2) (csDeflator cs2)
        (.bytes b) (.bool true) = some r2 →
      onDataBytes r1.2.2 = onDataBytes r2.2.2) := by
  have key : ∀ cs : Nat, 1 ≤ cs →
      ∃ r, Deflate.push (specEngine encode) ((encode b).length + 2)
        (csDeflator cs) (.bytes b) (.bool true) = some r ∧ onDataBytes r.2.2 = encode b := by
    intro cs hcs
    obtain ⟨dl, trl, hl, hb⟩ := pushLoop_entry_concat encode b cs hcs
    have hl2 : Deflate.pushLoop (specEngine encode) (csDeflator cs).options.chunkSize Z_FINISH
        ((encode b).length + 2) (Deflate.pushEntry (csDeflator cs) (.bytes b)) []
        = some (dl, trl, Z_STREAM_END, false) := hl
    refine ⟨_, push_finish_eq SpecState (specEngine encode) _ (csDeflator cs) (.bytes b)
      dl trl Z_STREAM_END rfl hl2, ?_⟩
    rw [onDataBytes_append, hb]
    simp [onDataBytes]
  refine ⟨fun msgTable => rfl, key cs1 h1, key cs2 h2, ?_⟩
  intro r1 r2 hr1 hr2
  obtain ⟨s1, hs1, hb1⟩ := key cs1 h1
  obtain ⟨s2, hs2, hb2⟩ := key cs2 h2
  injection hr1.symm.trans hs1 with e1
  injection hr2.symm.trans hs2 with e2
  rw [e1, e2, hb1, hb2]

theorem chunking_transparency_witness :
    ∃ r1, Deflate.push (specEngine (fun l => l))
        ((((fun (l : List Nat) => l) [7, 8]).length + 2))
        (csDeflator 1) (.bytes [7, 8]) (.bool true) = some r1
      ∧ onDataBytes r1.2.2 = (fun (l : List Nat) => l) [7, 8] :=
  (chunking_transparency (fun l => l) [7, 8] 1 3 (by decide) (by decide)).2.1

end Pako
